import Mathlib

/-!
Verification of the `MatchToPurlDB` pipeline
(`src/scanpipe/pipelines/match_to_purldb.py`).

The development shallowly embeds the data model (codebase resources,
discovered packages and their many-to-many attribution relation) and the
operations of the pipeline module: the candidate-selection query of
`match_purldb_resources`, its SHA1 batching, the availability guards of the
matching steps, the `pick_best_packages` reduction and the final
`remove_packages_without_resources` cleanup, together with the `steps()`
sequence of the pipeline class.

Stateful Django ORM code is embedded as explicit state passing over a
`Project` value; the fallible `pick_best_packages` (its dictionary lookup can
raise `KeyError`) is embedded in `Except`.
-/

set_option maxRecDepth 4000

deriving instance DecidableEq for Except

/-- A codebase resource (`CodebaseEntry` in the data model): one file or
directory of the scanned tree.  Attributes follow the data model: `path`,
`is_directory`, `is_archive`, the side (`"from"` or `"to"`), the mutable
`status` tag (the empty string meaning "no status set") and the optional
`sha1` fingerprint (the empty string meaning "no value"). -/
structure Resource where
  path : String
  is_directory : Bool
  is_archive : Bool
  side : String
  status : String
  sha1 : String
deriving DecidableEq

/-- A discovered package: primary key `pk`, the version-agnostic grouping
fields `namespace_`/`name`, and `version`. -/
structure Package where
  pk : Nat
  namespace_ : String
  name : String
  version : String
deriving DecidableEq

/-- The project state: its codebase resources, its discovered packages, and
the many-to-many attribution relation, one pair `(package pk, resource path)`
per package/resource link. -/
structure Project where
  resources : List Resource
  packages : List Package
  attributions : List (Nat × String)
deriving DecidableEq

/-- The attribution rows of the package with primary key `pk`
(`package.codebase_resources` through the m2m table). -/
def attributionsOf (p : Project) (pk : Nat) : List (Nat × String) :=
  p.attributions.filter (fun a => decide (a.1 = pk))

/-- `[r.path for r in related_package.resources]` (line 210): the paths of
the resources attributed to the package with primary key `pk`. -/
def pathsOf (p : Project) (pk : Nat) : List String :=
  (attributionsOf p pk).map (·.2)

/-- Well-formedness of the stored state: primary keys identify packages
uniquely, and the m2m attribution table has no duplicate rows. -/
def wf (p : Project) : Prop :=
  (p.packages.map Package.pk).Nodup ∧ p.attributions.Nodup

/-! ### Candidate selection of `match_purldb_resources` (lines 157-163) -/

/-- Modelled from the spec: the `files()` query-surface predicate of the
storage collaborator (§6), "files only" — entries that are not directories. -/
def files (l : List Resource) : List Resource :=
  l.filter (fun r => !r.is_directory)

/-- Modelled from the spec: the `to_codebase()` query-surface predicate,
entries on the `"to"` side. -/
def to_codebase (l : List Resource) : List Resource :=
  l.filter (fun r => decide (r.side = "to"))

/-- Modelled from the spec: the `no_status()` query-surface predicate,
entries with no status set yet. -/
def no_status (l : List Resource) : List Resource :=
  l.filter (fun r => decide (r.status = ""))

/-- Modelled from the spec: the `has_value("sha1")` query-surface predicate,
entries with a non-empty SHA1 fingerprint. -/
def has_value_sha1 (l : List Resource) : List Resource :=
  l.filter (fun r => !(decide (r.sha1 = "")))

/-- The `to_resources` queryset of `match_purldb_resources` (lines 157-163):
`project.codebaseresources.files().to_codebase().no_status()
.has_value("sha1").filter(is_archive=is_archive)`. -/
def to_resources (p : Project) (is_archive : Bool) : List Resource :=
  (has_value_sha1 (no_status (to_codebase (files p.resources)))).filter
    (fun r => r.is_archive == is_archive)

/-! ### SHA1 batching (docstring lines 151-156; `chunk_size=1000` default) -/

/-- Modelled from the spec: `d2d._match_purldb_resources` partitions the
candidates into ordered batches of at most `chunk_size` SHA1s ("Match
requests are sent off in batches of 1000 SHA1s", lines 154-155; §4.1).
The first argument is fuel bounding the recursion by the list length. -/
def chunked (chunk_size : Nat) : Nat → List String → List (List String)
  | _, [] => []
  | 0, _ :: _ => []
  | fuel + 1, x :: xs => (x :: xs).take chunk_size ::
      chunked chunk_size fuel ((x :: xs).drop chunk_size)

/-- The ordered batches of at most `chunk_size` fingerprints drawn from `l`. -/
def batches (l : List String) (chunk_size : Nat) : List (List String) :=
  chunked chunk_size l.length l

/-- The observable of `match_purldb_resources` (lines 148-178): the ordered
SHA1 batches submitted to the external matcher for the selected candidates,
with the source's `chunk_size=1000` default. -/
def match_purldb_resources (p : Project) (is_archive : Bool)
    (chunk_size : Nat := 1000) : List (List String) :=
  batches ((to_resources p is_archive).map Resource.sha1) chunk_size

/-! ### The pipeline steps (lines 34-46) and matcher configuration -/

/-- The methods of the `MatchToPurlDB` pipeline class that can appear as
steps; `match_archives_to_purldb_resource` is defined on the class
(lines 110-121) even though `steps()` does not list it. -/
inductive Step where
  | get_inputs
  | extract_inputs_to_codebase_directory
  | extract_archives_in_place
  | collect_and_create_codebase_resources
  | match_archives_to_purldb_packages
  | match_archives_to_purldb_resource
  | match_resources_to_purldb
  | pick_best_packages
  | remove_packages_without_resources
deriving DecidableEq

/-- `MatchToPurlDB.steps()` (lines 34-46).  The entry
`cls.match_archives_to_purldb_resources` is commented out in the source
(line 42) and therefore absent. -/
def MatchToPurlDB.steps : List Step :=
  [Step.get_inputs,
   Step.extract_inputs_to_codebase_directory,
   Step.extract_archives_in_place,
   Step.collect_and_create_codebase_resources,
   Step.match_archives_to_purldb_packages,
   Step.match_resources_to_purldb,
   Step.pick_best_packages,
   Step.remove_packages_without_resources]

/-- The three cooperating stages of the spec (§2) plus the input/extraction
plumbing: which stage a step belongs to. -/
inductive Stage where
  | inputCollection
  | extraction
  | resourceCollection
  | resourceMatching
  | archiveMatchRefinement
  | packageReduction
  | orphanRemoval
deriving DecidableEq

/-- Stage of each pipeline method, read off its body in the source: the three
matching methods each guard on `purldb.is_available()` and delegate to
`match_purldb_resources` (lines 97-134); `pick_best_packages` delegates to the
module-level reducer (lines 136-138); `remove_packages_without_resources`
deletes orphan packages (lines 140-145).  Modelled from the spec:
`d2d._match_purldb_resources` performs matching only (§4.1); no method of the
class invokes the Archive Match Refiner (`refine(project) ->
count_of_entries_refined`, §4.2), so no step carries that stage. -/
def stageOf : Step → Stage
  | Step.get_inputs => Stage.inputCollection
  | Step.extract_inputs_to_codebase_directory => Stage.extraction
  | Step.extract_archives_in_place => Stage.extraction
  | Step.collect_and_create_codebase_resources => Stage.resourceCollection
  | Step.match_archives_to_purldb_packages => Stage.resourceMatching
  | Step.match_archives_to_purldb_resource => Stage.resourceMatching
  | Step.match_resources_to_purldb => Stage.resourceMatching
  | Step.pick_best_packages => Stage.packageReduction
  | Step.remove_packages_without_resources => Stage.orphanRemoval

/-- The two pluggable matcher strategies of `d2d` used by the pipeline. -/
inductive MatcherFunc where
  | match_purldb_package
  | match_purldb_resource
deriving DecidableEq

/-- The `(is_archive, matcher_func)` arguments each matching method passes to
`match_purldb_resources` (lines 103-108, 116-121, 129-134); `none` for the
non-matching steps. -/
def matcherConfig : Step → Option (Bool × MatcherFunc)
  | Step.match_archives_to_purldb_packages =>
      some (true, MatcherFunc.match_purldb_package)
  | Step.match_archives_to_purldb_resource =>
      some (true, MatcherFunc.match_purldb_resource)
  | Step.match_resources_to_purldb =>
      some (false, MatcherFunc.match_purldb_resource)
  | _ => none

/-! ### Availability guards of the matching steps (lines 97-134) -/

/-- The skip message logged by the matching steps (lines 100, 113, 126). -/
def purldb_unavailable_log : String := "PurlDB is not available. Skipping."

/-- `MatchToPurlDB.match_archives_to_purldb_packages` (lines 97-108): if the
external service is unavailable, log the skip message and return the project
unchanged; otherwise run the (external) matching effect `run`.  Returns the
new project state and the log lines emitted. -/
def MatchToPurlDB.match_archives_to_purldb_packages (is_available : Bool)
    (run : Project → Project) (p : Project) : Project × List String :=
  if is_available then (run p, []) else (p, [purldb_unavailable_log])

/-- `MatchToPurlDB.match_archives_to_purldb_resource` (lines 110-121), with
the same availability guard. -/
def MatchToPurlDB.match_archives_to_purldb_resource (is_available : Bool)
    (run : Project → Project) (p : Project) : Project × List String :=
  if is_available then (run p, []) else (p, [purldb_unavailable_log])

/-- `MatchToPurlDB.match_resources_to_purldb` (lines 123-134), with the same
availability guard. -/
def MatchToPurlDB.match_resources_to_purldb (is_available : Bool)
    (run : Project → Project) (p : Project) : Project × List String :=
  if is_available then (run p, []) else (p, [purldb_unavailable_log])

/-! ### `pick_best_packages` (lines 181-222) -/

/-- The resource-path count used by the election (line 211). -/
def cnt (p : Project) (k : Package) : Nat :=
  (pathsOf p k.pk).length

/-- `project.discoveredpackages.filter(namespace=namespace, name=name)`
(line 204): the group of packages sharing the `(namespace, name)` key, in the
project's package iteration order. -/
def relatedOf (p : Project) (key : String × String) : List Package :=
  p.packages.filter (fun k => decide (k.namespace_ = key.1 ∧ k.name = key.2))

/-- The election loop of lines 206-215: starting from
`main_package = None`, `main_package_resources_count = 0`, replace the
accumulator whenever a package's resource-path count is strictly greater. -/
def electGo (p : Project) : List Package → Option Package × Nat →
    Option Package × Nat
  | [], acc => acc
  | k :: rest, acc =>
      if cnt p k > acc.2 then electGo p rest (some k, cnt p k)
      else electGo p rest acc

/-- The elected `main_package` of a group (lines 206-215); `none` when every
package of the group has zero resources. -/
def electMain (p : Project) (related : List Package) : Option Package :=
  (electGo p related (none, 0)).1

/-- `set(...).issubset(...)` (line 221) on path lists, as a Boolean. -/
def subsetB (l₁ l₂ : List String) : Bool :=
  l₁.all (fun x => decide (x ∈ l₂))

/-- The packages whose attributions the group loop of lines 219-222 clears:
the group members other than the main package (`exclude(pk=main_package.pk)`)
whose resource-path set is a subset of the main package's (line 221);
`[]` when no main package is elected. -/
def clearedOfGroup (p : Project) (key : String × String) : List Nat :=
  match electMain p (relatedOf p key) with
  | none => []
  | some main =>
      ((relatedOf p key).filter (fun k =>
        decide (k.pk ≠ main.pk) &&
          subsetB (pathsOf p k.pk) (pathsOf p main.pk))).map Package.pk

/-- One iteration of the outer loop of lines 203-222 for one
`(namespace, name)` key: elect the main package, then clear
(`related_package.codebase_resources.clear()`, line 222) the attributions of
every other group member whose path set is a subset of the main's.  When no
main package is elected, `resource_paths_by_package[main_package]` (line 217)
looks up `None`, which raises `KeyError`. -/
def processGroup (p : Project) (key : String × String) :
    Except String Project :=
  match electMain p (relatedOf p key) with
  | none => Except.error "KeyError: None"
  | some _ =>
      let kept := p.attributions.filter
        (fun a => !(decide (a.1 ∈ clearedOfGroup p key)))
      Except.ok { p with attributions := kept }

/-- `set(project.discoveredpackages.values_list('namespace', 'name'))`
(lines 200-201): the distinct `(namespace, name)` keys.  Python's set
iteration order is unspecified; it is modelled as a duplicate-free
enumeration, and the reduction result does not depend on the order because
distinct keys touch disjoint package groups. -/
def groupKeys (p : Project) : List (String × String) :=
  (p.packages.map (fun k => (k.namespace_, k.name))).dedup

/-- `pick_best_packages(project)` (lines 181-222): process every
`(namespace, name)` group in sequence over the evolving project state. -/
def pick_best_packages (p : Project) : Except String Project :=
  (groupKeys p).foldlM processGroup p

/-- All package pks cleared over the run, computed on the initial state. -/
def clearedAll (p : Project) : List Nat :=
  ((groupKeys p).map (clearedOfGroup p)).flatten

/-- The pks cleared while processing a given key list, on the initial
state; `clearedAll p` is this at `groupKeys p`. -/
def clearedOfKeys (p : Project) (keys : List (String × String)) : List Nat :=
  (keys.map (clearedOfGroup p)).flatten

/-! ### `remove_packages_without_resources` (lines 140-145) -/

/-- `project.discoveredpackages.filter(codebase_resources__isnull=True)
.delete()`: drop every package with zero attribution rows. -/
def remove_packages_without_resources (p : Project) : Project :=
  { p with packages :=
      p.packages.filter (fun k => !(attributionsOf p k.pk).isEmpty) }

/-! ### Example states used as concrete inputs -/

/-- A qualifying "to"-side file resource used by the batching example. -/
def res2500 : Resource :=
  { path := "to/f", is_directory := false, is_archive := false,
    side := "to", status := "", sha1 := "s" }

/-- A project with 2500 candidate resources for the batching bound. -/
def p2500 : Project :=
  { resources := List.replicate 2500 res2500, packages := [],
    attributions := [] }

/-- Package `v1.0` of the worked reduction example. -/
def exPkgA : Package :=
  { pk := 1, namespace_ := "org.foo", name := "bar", version := "1.0" }

/-- Package `v2.0` of the worked reduction example. -/
def exPkgB : Package :=
  { pk := 2, namespace_ := "org.foo", name := "bar", version := "2.0" }

/-- A package in a group of its own whose resource set is empty. -/
def exPkgZ : Package :=
  { pk := 5, namespace_ := "ns", name := "zero", version := "1.0" }

/-- Reduction example: `v1.0` is attributed `{to/x}`, `v2.0` is attributed
`{to/x, to/y}`; both share `(org.foo, bar)`. -/
def exC2 : Project :=
  { resources := [], packages := [exPkgA, exPkgB],
    attributions := [(1, "to/x"), (2, "to/x"), (2, "to/y")] }

/-- The state `pick_best_packages` produces from `exC2`: `v1.0` cleared,
`v2.0` untouched. -/
def exC2' : Project :=
  { resources := [], packages := [exPkgA, exPkgB],
    attributions := [(2, "to/x"), (2, "to/y")] }

/-- A project whose only group consists of the zero-resource `exPkgZ`. -/
def exC3 : Project :=
  { resources := [], packages := [exPkgZ], attributions := [] }

/-- A package with zero attributed resources, for the error analysis. -/
def exPkgE : Package :=
  { pk := 9, namespace_ := "ns", name := "empty", version := "0.1" }

/-- A project whose only `(namespace, name)` group contains only the
zero-resource package `exPkgE`. -/
def exC8 : Project :=
  { resources := [], packages := [exPkgE], attributions := [] }

/-- Orphan-removal example: `exPkgA` keeps one attribution, `exPkgE` has
none. -/
def exC4 : Project :=
  { resources := [], packages := [exPkgA, exPkgE],
    attributions := [(1, "to/x")] }

/-- A candidate resource for the selection example. -/
def exC5r : Resource :=
  { path := "to/a.js", is_directory := false, is_archive := false,
    side := "to", status := "", sha1 := "abc" }

/-- A project holding the selection example resource and a directory that
must not qualify. -/
def exC5 : Project :=
  { resources := [exC5r,
      { path := "to/d", is_directory := true, is_archive := false,
        side := "to", status := "", sha1 := "" }],
    packages := [], attributions := [] }

/-- Package `v1` of the frame-property example. -/
def exPkgD : Package :=
  { pk := 11, namespace_ := "w", name := "g", version := "1" }

/-- Package `v2` of the frame-property example. -/
def exPkgE2 : Package :=
  { pk := 12, namespace_ := "w", name := "g", version := "2" }

/-- Frame-property example: `exPkgD` is attributed `{to/x}`, `exPkgE2` is
attributed `{to/x, to/y}`. -/
def exC9 : Project :=
  { resources := [], packages := [exPkgD, exPkgE2],
    attributions := [(11, "to/x"), (12, "to/x"), (12, "to/y")] }

/-- The state `pick_best_packages` produces from `exC9`. -/
def exC9' : Project :=
  { resources := [], packages := [exPkgD, exPkgE2],
    attributions := [(12, "to/x"), (12, "to/y")] }

/-- A small project for the availability-guard example. -/
def exC7 : Project :=
  { resources := [exC5r], packages := [exPkgA],
    attributions := [(1, "to/a.js")] }

/-! ### Batching lemmas -/

lemma chunked_mem_length_le (n : Nat) :
    ∀ (fuel : Nat) (l b : List String), b ∈ chunked n fuel l →
      b.length ≤ n := by
  intro fuel
  induction fuel with
  | zero =>
      intro l b hb
      cases l with
      | nil => simp [chunked] at hb
      | cons x xs => simp [chunked] at hb
  | succ fuel ih =>
      intro l b hb
      cases l with
      | nil => simp [chunked] at hb
      | cons x xs =>
          simp only [chunked, List.mem_cons] at hb
          rcases hb with h | h
          · subst h
            exact List.length_take_le n (x :: xs)
          · exact ih _ b h

lemma chunked_flatten_eq (n : Nat) (hn : 1 ≤ n) :
    ∀ (fuel : Nat) (l : List String), l.length ≤ fuel →
      (chunked n fuel l).flatten = l := by
  intro fuel
  induction fuel with
  | zero =>
      intro l hl
      have hnil : l = [] := List.eq_nil_of_length_eq_zero (Nat.le_zero.mp hl)
      subst hnil
      simp [chunked]
  | succ fuel ih =>
      intro l hl
      cases l with
      | nil => simp [chunked]
      | cons x xs =>
          simp only [chunked, List.flatten_cons]
          rw [ih ((x :: xs).drop n) ?_]
          · exact List.take_append_drop n (x :: xs)
          · have hd : ((x :: xs).drop n).length = (x :: xs).length - n :=
              List.length_drop n (x :: xs)
            simp only [List.length_cons] at hl hd ⊢
            omega

lemma chunked_replicate_step (n fuel N : Nat) (a : String) (hN : N ≠ 0) :
    chunked n (fuel + 1) (List.replicate N a) =
      List.replicate (min n N) a ::
        chunked n fuel (List.replicate (N - n) a) := by
  cases N with
  | zero => exact absurd rfl hN
  | succ M =>
      rw [List.replicate_succ]
      rw [show chunked n (fuel + 1) (a :: List.replicate M a) =
          (a :: List.replicate M a).take n ::
            chunked n fuel ((a :: List.replicate M a).drop n) from rfl]
      rw [← List.replicate_succ, List.take_replicate, List.drop_replicate]

lemma to_resources_p2500 :
    (to_resources p2500 false).map Resource.sha1 =
      List.replicate 2500 "s" := by
  have h1 : to_resources p2500 false = List.replicate 2500 res2500 := by
    simp only [to_resources, has_value_sha1, no_status, to_codebase, files,
      p2500]
    rw [List.filter_replicate_of_pos (by decide),
      List.filter_replicate_of_pos (by decide),
      List.filter_replicate_of_pos (by decide),
      List.filter_replicate_of_pos (by decide),
      List.filter_replicate_of_pos (by decide)]
  rw [h1, List.map_replicate]
  rfl

lemma p2500_batches_lengths :
    (match_purldb_resources p2500 false).map List.length =
      [1000, 1000, 500] := by
  unfold match_purldb_resources
  rw [to_resources_p2500]
  unfold batches
  rw [List.length_replicate]
  have s1 : chunked 1000 2500 (List.replicate 2500 "s") =
      List.replicate 1000 "s" ::
        chunked 1000 2499 (List.replicate 1500 "s") := by
    have h := chunked_replicate_step 1000 2499 2500 "s" (by norm_num)
    norm_num at h
    exact h
  have s2 : chunked 1000 2499 (List.replicate 1500 "s") =
      List.replicate 1000 "s" ::
        chunked 1000 2498 (List.replicate 500 "s") := by
    have h := chunked_replicate_step 1000 2498 1500 "s" (by norm_num)
    norm_num at h
    exact h
  have s3 : chunked 1000 2498 (List.replicate 500 "s") =
      List.replicate 500 "s" ::
        chunked 1000 2497 (List.replicate 0 "s") := by
    have h := chunked_replicate_step 1000 2497 500 "s" (by norm_num)
    norm_num at h
    exact h
  have s4 : chunked 1000 2497 (List.replicate 0 "s") = [] := rfl
  rw [s1, s2, s3, s4]
  simp

lemma batches_length_le (l : List String) (n : Nat) :
    ∀ b ∈ batches l n, b.length ≤ n :=
  fun b hb => chunked_mem_length_le n l.length l b hb

lemma batches_flatten (l : List String) (n : Nat) (hn : 1 ≤ n) :
    (batches l n).flatten = l :=
  chunked_flatten_eq n hn l.length l (Nat.le_refl _)

/-! ### Claim theorems: pipeline structure, selection, batching, guards -/

/-- C1 (counterexample): no step of `MatchToPurlDB.steps()` belongs to the
Archive Match Refiner stage, so the pipeline does not run a refiner stage
between resource matching and package reduction. -/
theorem no_refiner_stage_in_steps :
    Stage.archiveMatchRefinement ∉ MatchToPurlDB.steps.map stageOf := by
  decide

/-- C1 (amended): a pipeline run executes input collection, extraction,
resource collection, then the Resource Matcher stage (archives via the
package strategy, then non-archive files), then directly the Package Reducer
and the orphan-removal cleanup, in that order; no Archive Match Refiner stage
appears in `steps()`. -/
theorem pipeline_stage_order :
    MatchToPurlDB.steps.map stageOf =
      [Stage.inputCollection, Stage.extraction, Stage.extraction,
       Stage.resourceCollection, Stage.resourceMatching,
       Stage.resourceMatching, Stage.packageReduction,
       Stage.orphanRemoval] := by
  decide

/-- C10: archives are never matched as individual PurlDB resources: the
method `match_archives_to_purldb_resource` is not in `steps()`, no step in
`steps()` is configured with `is_archive=True` together with the
resource-matching strategy or with `is_archive=False` together with the
package-matching strategy, while the two included matching steps carry
exactly the package strategy for archives and the resource strategy for
non-archives. -/
theorem archives_not_matched_as_resources :
    Step.match_archives_to_purldb_resource ∉ MatchToPurlDB.steps ∧
    (∀ s ∈ MatchToPurlDB.steps,
      matcherConfig s ≠ some (true, MatcherFunc.match_purldb_resource)) ∧
    (∀ s ∈ MatchToPurlDB.steps,
      matcherConfig s ≠ some (false, MatcherFunc.match_purldb_package)) ∧
    Step.match_archives_to_purldb_packages ∈ MatchToPurlDB.steps ∧
    matcherConfig Step.match_archives_to_purldb_packages =
      some (true, MatcherFunc.match_purldb_package) ∧
    Step.match_resources_to_purldb ∈ MatchToPurlDB.steps ∧
    matcherConfig Step.match_resources_to_purldb =
      some (false, MatcherFunc.match_purldb_resource) := by
  decide

/-- Witness for C10 at the concrete step `match_resources_to_purldb`. -/
theorem archives_not_matched_as_resources_witness :
    Step.match_resources_to_purldb ∈ MatchToPurlDB.steps ∧
    matcherConfig Step.match_resources_to_purldb ≠
      some (true, MatcherFunc.match_purldb_resource) :=
  ⟨by decide, archives_not_matched_as_resources.2.1
    Step.match_resources_to_purldb (by decide)⟩

/-- C5: the Resource Matcher's candidate set is exactly the project entries
that are files, on the `"to"` side, with no status, with a non-empty SHA1,
and with the requested `is_archive` flag. -/
theorem to_resources_mem (p : Project) (flag : Bool) (r : Resource) :
    r ∈ to_resources p flag ↔
      r ∈ p.resources ∧ r.is_directory = false ∧ r.side = "to" ∧
        r.status = "" ∧ r.sha1 ≠ "" ∧ r.is_archive = flag := by
  simp only [to_resources, has_value_sha1, no_status, to_codebase, files,
    List.mem_filter, decide_eq_true_eq, Bool.not_eq_true',
    decide_eq_false_iff_not, beq_iff_eq]
  tauto

/-- Witness for C5 at the concrete resource `exC5r` in `exC5`. -/
theorem to_resources_mem_witness :
    exC5r ∈ to_resources exC5 false ↔
      (exC5r ∈ exC5.resources ∧ exC5r.is_directory = false ∧
        exC5r.side = "to" ∧ exC5r.status = "" ∧ exC5r.sha1 ≠ "" ∧
        exC5r.is_archive = false) :=
  to_resources_mem exC5 false exC5r

/-- C6: the matcher partitions the candidate fingerprints into ordered
batches of at most `chunk_size` fingerprints covering all candidates in
order, `chunk_size` defaults to 1000, and 2500 candidates with
`chunk_size=1000` yield exactly 3 batches of sizes 1000, 1000 and 500. -/
theorem match_purldb_batching :
    (∀ (p : Project) (fl : Bool) (n : Nat), 1 ≤ n →
      (∀ b ∈ match_purldb_resources p fl n, b.length ≤ n) ∧
      (match_purldb_resources p fl n).flatten =
        (to_resources p fl).map Resource.sha1) ∧
    (∀ (p : Project) (fl : Bool),
      match_purldb_resources p fl = match_purldb_resources p fl 1000) ∧
    (match_purldb_resources p2500 false).map List.length =
      [1000, 1000, 500] := by
  refine ⟨fun p fl n hn => ⟨batches_length_le _ n, batches_flatten _ n hn⟩,
    fun p fl => rfl, ?_⟩
  exact p2500_batches_lengths

/-- Witness for C6: the batching cover at `chunk_size = 1000` on `p2500`. -/
theorem match_purldb_batching_witness :
    1 ≤ 1000 ∧ (match_purldb_resources p2500 false 1000).flatten =
      (to_resources p2500 false).map Resource.sha1 :=
  ⟨by decide, (match_purldb_batching.1 p2500 false 1000 (by decide)).2⟩

/-- C7: whenever `purldb.is_available()` is false, each matching step returns
with the project unchanged (no status or attribution mutated) and only logs
the skip message, for any external matching effect `run`; the step terminates
normally, so the pipeline run does not fail. -/
theorem matching_steps_skip_when_unavailable (run : Project → Project)
    (p : Project) :
    MatchToPurlDB.match_archives_to_purldb_packages false run p =
      (p, [purldb_unavailable_log]) ∧
    MatchToPurlDB.match_resources_to_purldb false run p =
      (p, [purldb_unavailable_log]) ∧
    MatchToPurlDB.match_archives_to_purldb_resource false run p =
      (p, [purldb_unavailable_log]) :=
  ⟨rfl, rfl, rfl⟩

/-- Witness for C7 at the identity matching effect on `exC7`. -/
theorem matching_steps_skip_witness :
    MatchToPurlDB.match_archives_to_purldb_packages false id exC7 =
      (exC7, [purldb_unavailable_log]) :=
  (matching_steps_skip_when_unavailable id exC7).1

/-- C4: the final step keeps a package exactly when it has at least one
attribution row; afterwards every remaining package has at least one
attributed resource, and resources and attributions are untouched. -/
theorem remove_packages_without_resources_spec (p : Project) :
    (∀ k : Package,
      k ∈ (remove_packages_without_resources p).packages ↔
        (k ∈ p.packages ∧ attributionsOf p k.pk ≠ [])) ∧
    (∀ k ∈ (remove_packages_without_resources p).packages,
      1 ≤ (attributionsOf (remove_packages_without_resources p) k.pk).length) ∧
    (remove_packages_without_resources p).attributions = p.attributions ∧
    (remove_packages_without_resources p).resources = p.resources := by
  have hmem : ∀ k : Package,
      k ∈ (remove_packages_without_resources p).packages ↔
        (k ∈ p.packages ∧ attributionsOf p k.pk ≠ []) := by
    intro k
    simp [remove_packages_without_resources, List.mem_filter,
      List.isEmpty_iff]
  refine ⟨hmem, ?_, rfl, rfl⟩
  intro k hk
  have hne : attributionsOf p k.pk ≠ [] := ((hmem k).mp hk).2
  have : attributionsOf (remove_packages_without_resources p) k.pk =
      attributionsOf p k.pk := rfl
  rw [this]
  exact Nat.succ_le_of_lt (List.length_pos.mpr hne)

/-- Witness for C4: in `exC4`, `exPkgA` survives with one attribution. -/
theorem remove_packages_without_resources_witness :
    exPkgA ∈ (remove_packages_without_resources exC4).packages ∧
    1 ≤ (attributionsOf (remove_packages_without_resources exC4)
          exPkgA.pk).length :=
  ⟨by decide, (remove_packages_without_resources_spec exC4).2.1 exPkgA
    (by decide)⟩

/-- C8 (failing input): on a project whose only `(namespace, name)` group
contains a single package with zero attributed resources, the election keeps
`main_package = None` and the lookup `resource_paths_by_package[main_package]`
(line 217) raises `KeyError` instead of completing as a silent skip. -/
theorem pick_best_keyerror :
    pick_best_packages exC8 = Except.error "KeyError: None" := by
  decide

/-- C2 (counterexample): in `exC2` the elected main package of the
`(org.foo, bar)` group is `exPkgB` itself; `exPkgB`'s resource-path set is
(trivially) a subset of the main package's, yet after the reduction `exPkgB`
keeps its attributions, refuting the claim's universal quantification over
pairs of distinct packages, which lets `P2` be the main package. -/
theorem pick_best_subset_claim_counterexample :
    pick_best_packages exC2 = Except.ok exC2' ∧
    exPkgA ∈ exC2.packages ∧ exPkgB ∈ exC2.packages ∧ exPkgA ≠ exPkgB ∧
    exPkgA.namespace_ = exPkgB.namespace_ ∧ exPkgA.name = exPkgB.name ∧
    electMain exC2 (relatedOf exC2 (exPkgB.namespace_, exPkgB.name)) =
      some exPkgB ∧
    pathsOf exC2 exPkgB.pk ⊆ pathsOf exC2 exPkgB.pk ∧
    attributionsOf exC2' exPkgB.pk ≠ [] := by
  refine ⟨by decide, by decide, by decide, by decide, by decide, by decide,
    by decide, List.Subset.refl _, by decide⟩

/-- C3 (counterexample): in `exC3` the `(ns, zero)` group consists of the
single package `exPkgZ`, which therefore has the largest resource-path-set
cardinality in its group, yet no main package is elected for the group and
the reduction fails with `KeyError` instead. -/
theorem pick_best_election_counterexample :
    relatedOf exC3 (exPkgZ.namespace_, exPkgZ.name) = [exPkgZ] ∧
    electMain exC3 (relatedOf exC3 (exPkgZ.namespace_, exPkgZ.name)) =
      none ∧
    pick_best_packages exC3 = Except.error "KeyError: None" := by
  refine ⟨by decide, by decide, by decide⟩

/-! ### Characterization of the main-package election -/

lemma electGo_some_spec (p : Project) :
    ∀ (l : List Package) (q : Option Package × Nat) (m : Package),
      (electGo p l q).1 = some m →
      (electGo p l q = q ∧ q.1 = some m ∧ ∀ k ∈ l, cnt p k ≤ q.2) ∨
      (∃ l₁ l₂, l = l₁ ++ m :: l₂ ∧ q.2 < cnt p m ∧
        (∀ k ∈ l₁, cnt p k < cnt p m) ∧ (∀ k ∈ l₂, cnt p k ≤ cnt p m)) := by
  intro l
  induction l with
  | nil =>
      intro q m h
      exact Or.inl ⟨rfl, h, by simp⟩
  | cons a t ih =>
      intro q m h
      by_cases hc : cnt p a > q.2
      · have he : electGo p (a :: t) q = electGo p t (some a, cnt p a) := by
          simp [electGo, hc]
        rw [he] at h
        rcases ih (some a, cnt p a) m h with ⟨heq, hfst, hall⟩ |
          ⟨l₁, l₂, hsplit, hlt, h₁, h₂⟩
        · have hma : a = m := by simpa using hfst
          subst hma
          refine Or.inr ⟨[], t, by simp, hc, by simp, ?_⟩
          intro k hk
          exact hall k hk
        · refine Or.inr ⟨a :: l₁, l₂, by rw [hsplit, List.cons_append], ?_, ?_, h₂⟩
          · exact Nat.lt_trans hc hlt
          · intro k hk
            rcases List.mem_cons.mp hk with rfl | hk'
            · exact hlt
            · exact h₁ k hk'
      · have he : electGo p (a :: t) q = electGo p t q := by
          simp [electGo, hc]
        rw [he] at h
        rcases ih q m h with ⟨heq, hfst, hall⟩ |
          ⟨l₁, l₂, hsplit, hlt, h₁, h₂⟩
        · refine Or.inl ⟨by rw [he]; exact heq, hfst, ?_⟩
          intro k hk
          rcases List.mem_cons.mp hk with rfl | hk'
          · exact Nat.le_of_not_lt hc
          · exact hall k hk'
        · refine Or.inr ⟨a :: l₁, l₂, by rw [hsplit, List.cons_append], hlt, ?_, h₂⟩
          intro k hk
          rcases List.mem_cons.mp hk with rfl | hk'
          · exact Nat.lt_of_le_of_lt (Nat.le_of_not_lt hc) hlt
          · exact h₁ k hk'

lemma electGo_none_spec (p : Project) :
    ∀ (l : List Package) (q : Option Package × Nat),
      (electGo p l q).1 = none →
      q.1 = none ∧ ∀ k ∈ l, cnt p k ≤ q.2 := by
  intro l
  induction l with
  | nil =>
      intro q h
      exact ⟨h, by simp⟩
  | cons a t ih =>
      intro q h
      by_cases hc : cnt p a > q.2
      · have he : electGo p (a :: t) q = electGo p t (some a, cnt p a) := by
          simp [electGo, hc]
        rw [he] at h
        have hfst := (ih _ h).1
        simp at hfst
      · have he : electGo p (a :: t) q = electGo p t q := by
          simp [electGo, hc]
        rw [he] at h
        obtain ⟨h1, h2⟩ := ih q h
        refine ⟨h1, ?_⟩
        intro k hk
        rcases List.mem_cons.mp hk with rfl | hk'
        · exact Nat.le_of_not_lt hc
        · exact h2 k hk'

lemma electMain_some_spec (p : Project) (l : List Package) (m : Package)
    (h : electMain p l = some m) :
    ∃ l₁ l₂, l = l₁ ++ m :: l₂ ∧ 0 < cnt p m ∧
      (∀ k ∈ l₁, cnt p k < cnt p m) ∧ (∀ k ∈ l₂, cnt p k ≤ cnt p m) := by
  rcases electGo_some_spec p l (none, 0) m h with ⟨-, hfst, -⟩ | hr
  · simp at hfst
  · exact hr

lemma electMain_mem (p : Project) (l : List Package) (m : Package)
    (h : electMain p l = some m) : m ∈ l := by
  obtain ⟨l₁, l₂, hsplit, -, -, -⟩ := electMain_some_spec p l m h
  rw [hsplit]
  exact List.mem_append_right _ (List.mem_cons_self _ _)

lemma electMain_max (p : Project) (l : List Package) (m : Package)
    (h : electMain p l = some m) : ∀ k ∈ l, cnt p k ≤ cnt p m := by
  obtain ⟨l₁, l₂, hsplit, -, h₁, h₂⟩ := electMain_some_spec p l m h
  subst hsplit
  intro k hk
  rcases List.mem_append.mp hk with hk' | hk'
  · exact Nat.le_of_lt (h₁ k hk')
  · rcases List.mem_cons.mp hk' with rfl | hk''
    · exact Nat.le_refl _
    · exact h₂ k hk''

/-! ### Well-formedness helpers -/

lemma pk_inj (p : Project) (hpk : (p.packages.map Package.pk).Nodup)
    {a b : Package} (ha : a ∈ p.packages) (hb : b ∈ p.packages)
    (hab : a.pk = b.pk) : a = b :=
  List.inj_on_of_nodup_map hpk ha hb hab

lemma pathsOf_nodup (p : Project) (hw : p.attributions.Nodup) (pk : Nat) :
    (pathsOf p pk).Nodup := by
  unfold pathsOf attributionsOf
  refine List.Nodup.map_on ?_ (hw.filter _)
  intro x hx y hy hxy
  have hx1 : x.1 = pk := by
    have h := (List.mem_filter.mp hx).2
    simpa using h
  have hy1 : y.1 = pk := by
    have h := (List.mem_filter.mp hy).2
    simpa using h
  exact Prod.ext (hx1.trans hy1.symm) hxy

lemma cnt_eq_card (p : Project) (hw : p.attributions.Nodup) (k : Package) :
    (pathsOf p k.pk).toFinset.card = cnt p k := by
  rw [List.toFinset_card_of_nodup (pathsOf_nodup p hw k.pk)]
  rfl

lemma subsetB_iff (l₁ l₂ : List String) : subsetB l₁ l₂ = true ↔ l₁ ⊆ l₂ := by
  unfold subsetB
  rw [List.all_eq_true]
  constructor
  · intro h x hx
    exact of_decide_eq_true (h x hx)
  · intro h x hx
    exact decide_eq_true (h hx)

/-! ### Filter and state-congruence lemmas for the reduction -/

lemma filter_pk_of_filter_not_done (l : List (Nat × String))
    (done : List Nat) (pk : Nat) (h : pk ∉ done) :
    (l.filter (fun a => !(decide (a.1 ∈ done)))).filter
        (fun a => decide (a.1 = pk)) =
      l.filter (fun a => decide (a.1 = pk)) := by
  rw [List.filter_filter]
  apply List.filter_congr
  intro a ha
  by_cases hpk : a.1 = pk
  · simp [hpk, h]
  · simp [hpk]

lemma filter_pk_of_filter_done (l : List (Nat × String)) (done : List Nat)
    (pk : Nat) (h : pk ∈ done) :
    (l.filter (fun a => !(decide (a.1 ∈ done)))).filter
        (fun a => decide (a.1 = pk)) = [] := by
  rw [List.filter_filter, List.filter_eq_nil_iff]
  intro a ha
  by_cases hpk : a.1 = pk
  · simp [hpk, h]
  · simp [hpk]

lemma filter_done_append (l : List (Nat × String)) (done C : List Nat) :
    (l.filter (fun a => !(decide (a.1 ∈ done)))).filter
        (fun a => !(decide (a.1 ∈ C))) =
      l.filter (fun a => !(decide (a.1 ∈ done ++ C))) := by
  rw [List.filter_filter]
  apply List.filter_congr
  intro a ha
  by_cases h1 : a.1 ∈ done <;> by_cases h2 : a.1 ∈ C <;>
    simp [h1, h2, List.mem_append]

lemma pathsOf_eq_of_notdone (p s : Project) (done : List Nat)
    (hs : s.attributions = p.attributions.filter
      (fun a => !(decide (a.1 ∈ done)))) (pk : Nat) (h : pk ∉ done) :
    pathsOf s pk = pathsOf p pk := by
  unfold pathsOf attributionsOf
  rw [hs, filter_pk_of_filter_not_done p.attributions done pk h]

lemma electGo_congr (p q : Project) :
    ∀ (l : List Package) (acc : Option Package × Nat),
      (∀ k ∈ l, pathsOf p k.pk = pathsOf q k.pk) →
      electGo p l acc = electGo q l acc := by
  intro l
  induction l with
  | nil =>
      intro acc h
      rfl
  | cons a t ih =>
      intro acc h
      have ha : cnt p a = cnt q a := by
        unfold cnt
        rw [h a (List.mem_cons_self a t)]
      simp only [electGo]
      rw [ha]
      by_cases hc : cnt q a > acc.2
      · rw [if_pos hc, if_pos hc]
        exact ih _ (fun k hk => h k (List.mem_cons_of_mem a hk))
      · rw [if_neg hc, if_neg hc]
        exact ih _ (fun k hk => h k (List.mem_cons_of_mem a hk))

lemma relatedOf_congr (p s : Project) (key : String × String)
    (hpack : s.packages = p.packages) :
    relatedOf s key = relatedOf p key := by
  unfold relatedOf
  rw [hpack]

lemma electMain_congr (p s : Project) (l : List Package)
    (hpaths : ∀ k ∈ l, pathsOf s k.pk = pathsOf p k.pk) :
    electMain s l = electMain p l := by
  unfold electMain
  rw [electGo_congr s p l (none, 0) hpaths]

lemma clearedOfGroup_none (p : Project) (key : String × String)
    (h : electMain p (relatedOf p key) = none) :
    clearedOfGroup p key = [] := by
  unfold clearedOfGroup
  rw [h]

lemma clearedOfGroup_some (p : Project) (key : String × String)
    (main : Package) (h : electMain p (relatedOf p key) = some main) :
    clearedOfGroup p key =
      ((relatedOf p key).filter (fun k => decide (k.pk ≠ main.pk) &&
        subsetB (pathsOf p k.pk) (pathsOf p main.pk))).map Package.pk := by
  unfold clearedOfGroup
  rw [h]

lemma clearedOfGroup_congr (p s : Project) (key : String × String)
    (hpack : s.packages = p.packages)
    (hpaths : ∀ k ∈ relatedOf p key, pathsOf s k.pk = pathsOf p k.pk) :
    clearedOfGroup s key = clearedOfGroup p key := by
  have hrel : relatedOf s key = relatedOf p key :=
    relatedOf_congr p s key hpack
  have hel : electMain s (relatedOf s key) =
      electMain p (relatedOf p key) := by
    rw [hrel]
    exact electMain_congr p s (relatedOf p key) hpaths
  cases helm : electMain p (relatedOf p key) with
  | none =>
      rw [clearedOfGroup_none s key (by rw [hel, helm]),
        clearedOfGroup_none p key helm]
  | some main =>
      have hmain : main ∈ relatedOf p key := electMain_mem p _ main helm
      rw [clearedOfGroup_some s key main (by rw [hel, helm]),
        clearedOfGroup_some p key main helm, hrel]
      congr 1
      apply List.filter_congr
      intro k hk
      rw [hpaths k hk, hpaths main hmain]

lemma processGroup_eq_error (p s : Project) (key : String × String)
    (hpack : s.packages = p.packages)
    (hpaths : ∀ k ∈ relatedOf p key, pathsOf s k.pk = pathsOf p k.pk)
    (helm : electMain p (relatedOf p key) = none) :
    processGroup s key = Except.error "KeyError: None" := by
  unfold processGroup
  rw [relatedOf_congr p s key hpack,
    electMain_congr p s (relatedOf p key) hpaths, helm]

lemma processGroup_eq_ok (p s : Project) (key : String × String)
    (hpack : s.packages = p.packages)
    (hpaths : ∀ k ∈ relatedOf p key, pathsOf s k.pk = pathsOf p k.pk)
    (main : Package)
    (helm : electMain p (relatedOf p key) = some main) :
    processGroup s key = Except.ok { s with attributions := s.attributions.filter (fun a => !(decide (a.1 ∈ clearedOfGroup p key))) } := by
  unfold processGroup
  rw [relatedOf_congr p s key hpack,
    electMain_congr p s (relatedOf p key) hpaths, helm,
    clearedOfGroup_congr p s key hpack hpaths]

lemma relatedOf_key (p : Project) (key : String × String) (k : Package)
    (h : k ∈ relatedOf p key) :
    k ∈ p.packages ∧ key = (k.namespace_, k.name) := by
  obtain ⟨h1, h2⟩ := List.mem_filter.mp h
  rw [decide_eq_true_eq] at h2
  obtain ⟨hns, hn⟩ := h2
  exact ⟨h1, Prod.ext hns.symm hn.symm⟩

lemma mem_relatedOf_self (p : Project) (k : Package) (hk : k ∈ p.packages) :
    k ∈ relatedOf p (k.namespace_, k.name) := by
  unfold relatedOf
  exact List.mem_filter.mpr ⟨hk, by simp⟩

lemma mem_groupKeys (p : Project) (k : Package) (hk : k ∈ p.packages) :
    (k.namespace_, k.name) ∈ groupKeys p := by
  unfold groupKeys
  rw [List.mem_dedup]
  exact List.mem_map.mpr ⟨k, hk, rfl⟩

lemma mem_clearedOfGroup_iff (p : Project) (key : String × String)
    (x : Nat) :
    x ∈ clearedOfGroup p key ↔
      ∃ main k, electMain p (relatedOf p key) = some main ∧
        k ∈ relatedOf p key ∧ k.pk = x ∧ k.pk ≠ main.pk ∧
        subsetB (pathsOf p k.pk) (pathsOf p main.pk) = true := by
  cases helm : electMain p (relatedOf p key) with
  | none =>
      rw [clearedOfGroup_none p key helm]
      simp [helm]
  | some main =>
      rw [clearedOfGroup_some p key main helm]
      constructor
      · intro hx
        obtain ⟨k, hk, hpk⟩ := List.mem_map.mp hx
        obtain ⟨hkrel, hpred⟩ := List.mem_filter.mp hk
        rw [Bool.and_eq_true, decide_eq_true_eq] at hpred
        exact ⟨main, k, rfl, hkrel, hpk, hpred.1, hpred.2⟩
      · rintro ⟨main', k, hmain', hkrel, hpk, hne, hsub⟩
        have hmm : main' = main := by
          injection hmain' with h
          exact h.symm
        subst hmm
        apply List.mem_map.mpr
        refine ⟨k, List.mem_filter.mpr ⟨hkrel, ?_⟩, hpk⟩
        rw [Bool.and_eq_true, decide_eq_true_eq]
        exact ⟨hne, hsub⟩

/-! ### The master specification of the reduction fold -/

lemma foldlM_processGroup_spec (p : Project)
    (hpk : (p.packages.map Package.pk).Nodup) :
    ∀ (keys : List (String × String)), keys.Nodup →
      ∀ (done : List Nat) (s s' : Project),
      s.packages = p.packages →
      s.resources = p.resources →
      s.attributions = p.attributions.filter
        (fun a => !(decide (a.1 ∈ done))) →
      (∀ key ∈ keys, ∀ k ∈ relatedOf p key, k.pk ∉ done) →
      List.foldlM processGroup s keys = Except.ok s' →
      s'.packages = p.packages ∧ s'.resources = p.resources ∧
      s'.attributions = p.attributions.filter
        (fun a => !(decide (a.1 ∈ done ++ clearedOfKeys p keys))) := by
  intro keys
  induction keys with
  | nil =>
      intro hnd done s s' hpack hres hattr hfresh hfold
      simp only [List.foldlM_nil] at hfold
      have hok : Except.ok s = Except.ok s' := hfold
      have hss : s = s' := by injection hok
      subst hss
      refine ⟨hpack, hres, ?_⟩
      unfold clearedOfKeys
      simp only [List.map_nil, List.flatten_nil, List.append_nil]
      exact hattr
  | cons K rest ih =>
      intro hnd done s s' hpack hres hattr hfresh hfold
      obtain ⟨hKrest, hndrest⟩ := List.nodup_cons.mp hnd
      have hfreshK : ∀ k ∈ relatedOf p K, k.pk ∉ done :=
        hfresh K (List.mem_cons_self K rest)
      have hpaths : ∀ k ∈ relatedOf p K, pathsOf s k.pk = pathsOf p k.pk :=
        fun k hk => pathsOf_eq_of_notdone p s done hattr k.pk (hfreshK k hk)
      rw [List.foldlM_cons] at hfold
      cases helm : electMain p (relatedOf p K) with
      | none =>
          rw [processGroup_eq_error p s K hpack hpaths helm] at hfold
          have hfold' : (Except.error "KeyError: None" :
              Except String Project) = Except.ok s' := hfold
          exact Except.noConfusion hfold'
      | some main =>
          rw [processGroup_eq_ok p s K hpack hpaths main helm] at hfold
          have hfold₂ : List.foldlM processGroup { s with attributions := s.attributions.filter (fun a => !(decide (a.1 ∈ clearedOfGroup p K))) } rest = Except.ok s' := hfold
          have h₂attr : ({ s with attributions := s.attributions.filter (fun a => !(decide (a.1 ∈ clearedOfGroup p K))) } : Project).attributions = p.attributions.filter (fun a => !(decide (a.1 ∈ done ++ clearedOfGroup p K))) := by
            show s.attributions.filter _ = _
            rw [hattr, filter_done_append]
          have h₂fresh : ∀ key' ∈ rest, ∀ k ∈ relatedOf p key',
              k.pk ∉ done ++ clearedOfGroup p K := by
            intro key' hk' k hkrel
            rw [List.mem_append]
            rintro (hd | hc)
            · exact hfresh key' (List.mem_cons_of_mem K hk') k hkrel hd
            · obtain ⟨main', k'', helm', hk''rel, hk''pk, -, -⟩ :=
                (mem_clearedOfGroup_iff p K k.pk).mp hc
              have hk1 : k ∈ p.packages := (relatedOf_key p key' k hkrel).1
              have hk2 : k'' ∈ p.packages :=
                (relatedOf_key p K k'' hk''rel).1
              have hkk : k'' = k := pk_inj p hpk hk2 hk1 hk''pk
              have hkey1 : key' = (k.namespace_, k.name) :=
                (relatedOf_key p key' k hkrel).2
              have hkey2 : K = (k''.namespace_, k''.name) :=
                (relatedOf_key p K k'' hk''rel).2
              rw [hkk] at hkey2
              apply hKrest
              rw [hkey2, ← hkey1]
              exact hk'
          have hr := ih hndrest (done ++ clearedOfGroup p K) { s with attributions := s.attributions.filter (fun a => !(decide (a.1 ∈ clearedOfGroup p K))) } s' hpack hres h₂attr h₂fresh hfold₂
          refine ⟨hr.1, hr.2.1, ?_⟩
          have hkeys : clearedOfKeys p (K :: rest) =
              clearedOfGroup p K ++ clearedOfKeys p rest := by
            unfold clearedOfKeys
            rw [List.map_cons, List.flatten_cons]
          rw [hkeys, ← List.append_assoc]
          exact hr.2.2

lemma pick_best_packages_ok (p s' : Project)
    (hpk : (p.packages.map Package.pk).Nodup)
    (h : pick_best_packages p = Except.ok s') :
    s'.packages = p.packages ∧ s'.resources = p.resources ∧
    s'.attributions = p.attributions.filter
      (fun a => !(decide (a.1 ∈ clearedAll p))) := by
  have hattr : p.attributions = p.attributions.filter
      (fun a => !(decide (a.1 ∈ ([] : List Nat)))) := by
    symm
    rw [List.filter_eq_self]
    intro a ha
    simp
  have hr := foldlM_processGroup_spec p hpk (groupKeys p)
    (List.nodup_dedup _) [] p s' rfl rfl hattr
    (by intro key hk k hkr; simp) h
  refine ⟨hr.1, hr.2.1, ?_⟩
  have hca : clearedAll p = clearedOfKeys p (groupKeys p) := rfl
  rw [hca]
  have hnil : ([] : List Nat) ++ clearedOfKeys p (groupKeys p) =
      clearedOfKeys p (groupKeys p) := List.nil_append _
  rw [← hnil]
  exact hr.2.2

/-! ### Cleared-set membership lemmas -/

lemma mem_clearedAll_iff (p : Project) (x : Nat) :
    x ∈ clearedAll p ↔ ∃ key ∈ groupKeys p, x ∈ clearedOfGroup p key := by
  unfold clearedAll
  rw [List.mem_flatten]
  constructor
  · rintro ⟨l, hl, hx⟩
    obtain ⟨key, hkey, rfl⟩ := List.mem_map.mp hl
    exact ⟨key, hkey, hx⟩
  · rintro ⟨key, hkey, hx⟩
    exact ⟨clearedOfGroup p key, List.mem_map.mpr ⟨key, hkey, rfl⟩, hx⟩

lemma cleared_characterization (p : Project)
    (hpk : (p.packages.map Package.pk).Nodup) (x : Nat)
    (hx : x ∈ clearedAll p) :
    ∃ k mk : Package, k ∈ p.packages ∧ k.pk = x ∧
      electMain p (relatedOf p (k.namespace_, k.name)) = some mk ∧
      k.pk ≠ mk.pk ∧ pathsOf p k.pk ⊆ pathsOf p mk.pk := by
  obtain ⟨key, hkey, hxg⟩ := (mem_clearedAll_iff p x).mp hx
  obtain ⟨mk, k, helm, hkrel, hkpk, hne, hsub⟩ :=
    (mem_clearedOfGroup_iff p key x).mp hxg
  obtain ⟨hkp, hkeyeq⟩ := relatedOf_key p key k hkrel
  rw [hkeyeq] at helm
  exact ⟨k, mk, hkp, hkpk, helm, hne, (subsetB_iff _ _).mp hsub⟩

lemma pk_not_cleared_of_main (p : Project)
    (hpk : (p.packages.map Package.pk).Nodup) (key : String × String)
    (m : Package) (hm : electMain p (relatedOf p key) = some m) :
    m.pk ∉ clearedAll p := by
  intro hmem
  obtain ⟨key', hkey', hxg⟩ := (mem_clearedAll_iff p m.pk).mp hmem
  obtain ⟨main', k, helm', hkrel, hkpk, hne, -⟩ :=
    (mem_clearedOfGroup_iff p key' m.pk).mp hxg
  have hmrel : m ∈ relatedOf p key := electMain_mem p _ m hm
  have hmp : m ∈ p.packages := (relatedOf_key p key m hmrel).1
  have hkp : k ∈ p.packages := (relatedOf_key p key' k hkrel).1
  have hkm : k = m := pk_inj p hpk hkp hmp hkpk
  have h1 : key' = (k.namespace_, k.name) := (relatedOf_key p key' k hkrel).2
  have h2 : key = (m.namespace_, m.name) := (relatedOf_key p key m hmrel).2
  rw [hkm] at h1
  rw [h1, ← h2, hm] at helm'
  injection helm' with h3
  apply hne
  rw [hkm, ← h3]

/-! ### Claim theorems: the reduction -/

/-- C2 (amended): after `pick_best_packages` completes successfully, for
every package `P2` of the project other than the elected main package `m` of
its `(namespace, name)` group: if `P2`'s resource-path set is a subset of (or
equal to) `m`'s resource-path set then `P2` ends with zero attributions, and
if it is not a subset then `P2`'s attribution set is unchanged. -/
theorem pick_best_subset_invariant (p p' : Project) (hwf : wf p)
    (hok : pick_best_packages p = Except.ok p') (P2 m : Package)
    (hP2 : P2 ∈ p.packages)
    (hm : electMain p (relatedOf p (P2.namespace_, P2.name)) = some m)
    (hne : P2.pk ≠ m.pk) :
    (pathsOf p P2.pk ⊆ pathsOf p m.pk → attributionsOf p' P2.pk = []) ∧
    (¬ pathsOf p P2.pk ⊆ pathsOf p m.pk →
      attributionsOf p' P2.pk = attributionsOf p P2.pk) := by
  obtain ⟨-, -, hattr⟩ := pick_best_packages_ok p p' hwf.1 hok
  constructor
  · intro hsub
    have hx : P2.pk ∈ clearedAll p := by
      apply (mem_clearedAll_iff p P2.pk).mpr
      refine ⟨(P2.namespace_, P2.name), mem_groupKeys p P2 hP2, ?_⟩
      apply (mem_clearedOfGroup_iff p _ P2.pk).mpr
      exact ⟨m, P2, hm, mem_relatedOf_self p P2 hP2, rfl, hne,
        (subsetB_iff _ _).mpr hsub⟩
    unfold attributionsOf
    rw [hattr]
    exact filter_pk_of_filter_done p.attributions (clearedAll p) P2.pk hx
  · intro hnsub
    have hx : P2.pk ∉ clearedAll p := by
      intro hmem
      obtain ⟨k, mk, hkp, hkpk, helm, hne', hsub⟩ :=
        cleared_characterization p hwf.1 P2.pk hmem
      have hkP2 : k = P2 := pk_inj p hwf.1 hkp hP2 hkpk
      rw [hkP2] at helm hsub
      rw [hm] at helm
      injection helm with hmk
      rw [← hmk] at hsub
      exact hnsub hsub
    unfold attributionsOf
    rw [hattr]
    exact filter_pk_of_filter_not_done p.attributions (clearedAll p) P2.pk hx

/-- Witness for C2 at `P2 = exPkgA`, main `exPkgB` in `exC2`. -/
theorem pick_best_subset_invariant_witness :
    wf exC2 ∧
    (pathsOf exC2 exPkgA.pk ⊆ pathsOf exC2 exPkgB.pk →
      attributionsOf exC2' exPkgA.pk = []) ∧
    (¬ pathsOf exC2 exPkgA.pk ⊆ pathsOf exC2 exPkgB.pk →
      attributionsOf exC2' exPkgA.pk = attributionsOf exC2 exPkgA.pk) := by
  have h := pick_best_subset_invariant exC2 exC2' ⟨by decide, by decide⟩
    (by decide) exPkgA exPkgB (by decide) (by decide) (by decide)
  exact ⟨⟨by decide, by decide⟩, h.1, h.2⟩

/-- C3 (amended): whenever a main package `m` is elected for a group (which
happens exactly when some package of the group has a nonempty resource set),
`m` belongs to the group, has a nonempty resource-path set of maximal
cardinality among the group, and every package encountered before `m` in the
group's iteration order has a strictly smaller resource-path-set cardinality
(so the first package attaining the maximum wins ties, with no secondary
tie-break key); in a group whose packages all have empty resource sets, no
main package is elected and the reduction fails instead. -/
theorem pick_best_election (p : Project) (hwf : wf p)
    (key : String × String) (m : Package)
    (hm : electMain p (relatedOf p key) = some m) :
    m ∈ relatedOf p key ∧ 0 < (pathsOf p m.pk).toFinset.card ∧
    (∀ k ∈ relatedOf p key,
      (pathsOf p k.pk).toFinset.card ≤ (pathsOf p m.pk).toFinset.card) ∧
    ∃ l₁ l₂, relatedOf p key = l₁ ++ m :: l₂ ∧
      ∀ k ∈ l₁,
        (pathsOf p k.pk).toFinset.card < (pathsOf p m.pk).toFinset.card := by
  obtain ⟨l₁, l₂, hsplit, hpos, h₁, h₂⟩ :=
    electMain_some_spec p (relatedOf p key) m hm
  have hcard : ∀ k : Package,
      (pathsOf p k.pk).toFinset.card = cnt p k :=
    fun k => cnt_eq_card p hwf.2 k
  refine ⟨electMain_mem p _ m hm, ?_, ?_, l₁, l₂, hsplit, ?_⟩
  · rw [hcard m]
    exact hpos
  · intro k hk
    rw [hcard k, hcard m]
    exact electMain_max p _ m hm k hk
  · intro k hk
    rw [hcard k, hcard m]
    exact h₁ k hk

/-- Witness for C3: the elected main of `(org.foo, bar)` in `exC2`. -/
theorem pick_best_election_witness :
    wf exC2 ∧ exPkgB ∈ relatedOf exC2 ("org.foo", "bar") ∧
    0 < (pathsOf exC2 exPkgB.pk).toFinset.card := by
  have h := pick_best_election exC2 ⟨by decide, by decide⟩
    ("org.foo", "bar") exPkgB (by decide)
  exact ⟨⟨by decide, by decide⟩, h.1, h.2.1⟩

/-- C9: a successful `pick_best_packages` run deletes no `Package` record
and no resource, leaves every elected main package's attribution set
unchanged, and its only mutation is dropping the attribution rows of cleared
packages: the final attributions are exactly the initial ones minus the rows
of cleared pks, and every dropped row belongs to a non-main package of its
group whose resource-path set is a subset of the elected main's. -/
theorem pick_best_frame (p p' : Project) (hwf : wf p)
    (hok : pick_best_packages p = Except.ok p') :
    p'.packages = p.packages ∧ p'.resources = p.resources ∧
    p'.attributions = p.attributions.filter
      (fun a => !(decide (a.1 ∈ clearedAll p))) ∧
    (∀ key ∈ groupKeys p, ∀ m : Package,
      electMain p (relatedOf p key) = some m →
      attributionsOf p' m.pk = attributionsOf p m.pk) ∧
    (∀ a ∈ p.attributions, a ∉ p'.attributions →
      ∃ k mk : Package, k ∈ p.packages ∧ k.pk = a.1 ∧
        electMain p (relatedOf p (k.namespace_, k.name)) = some mk ∧
        k.pk ≠ mk.pk ∧ pathsOf p k.pk ⊆ pathsOf p mk.pk) := by
  obtain ⟨hpack, hres, hattr⟩ := pick_best_packages_ok p p' hwf.1 hok
  refine ⟨hpack, hres, hattr, ?_, ?_⟩
  · intro key hkey m hm
    have hx : m.pk ∉ clearedAll p := pk_not_cleared_of_main p hwf.1 key m hm
    unfold attributionsOf
    rw [hattr]
    exact filter_pk_of_filter_not_done p.attributions (clearedAll p) m.pk hx
  · intro a ha hnotin
    have hx : a.1 ∈ clearedAll p := by
      by_contra hno
      apply hnotin
      rw [hattr]
      apply List.mem_filter.mpr
      exact ⟨ha, by simp [hno]⟩
    exact cleared_characterization p hwf.1 a.1 hx

/-- Witness for C9 on the concrete reduction `exC9` to `exC9'`. -/
theorem pick_best_frame_witness :
    wf exC9 ∧ exC9'.packages = exC9.packages ∧
    exC9'.resources = exC9.resources := by
  have h := pick_best_frame exC9 exC9' ⟨by decide, by decide⟩ (by decide)
  exact ⟨⟨by decide, by decide⟩, h.1, h.2.1⟩
